import Mathlib

/-!
Verification of the portfolio state machine and position-sizing logic of the
Live_Trading repository.

The embedding covers:
* state_manager.py, class PortfolioManager: load_or_create, save,
  get_cash, get_active_positions_count, get_position, execute_buy, execute_sell;
* decision_engine.py, class LiveDecisionEngine: the risk configuration
  (risk_per_trade, max_global_risk, max_positions) and the per-asset entry
  evaluation of run_daily_execution, including the inline position sizing.

Money amounts, prices, quantities and fee rates are modelled as exact
rationals.  Timestamps (datetime.now strings) are modelled as natural
numbers supplied by the caller.  The Python positions dict (insertion
ordered, unique keys) is modelled as an association list; updating a key
replaces its first binding in place and deleting a key drops every binding
for it, which on unique-key lists coincides with Python dict semantics.
-/

namespace LiveTrading

/-- An open position, as stored under one asset key of the positions dict:
qty, entry_price, entry_date. -/
structure Position where
  qty : ℚ
  entry_price : ℚ
  entry_date : ℕ
deriving DecidableEq

/-- One archived record of state.history, appended by execute_sell:
asset, entry_price, exit_price, pnl_net, exit_date. -/
structure ClosedTrade where
  asset : String
  entry_price : ℚ
  exit_price : ℚ
  pnl_net : ℚ
  exit_date : ℕ
deriving DecidableEq

/-- The persisted aggregate state of PortfolioManager: cash, positions,
history, last_updated. -/
structure PortfolioState where
  cash : ℚ
  positions : List (String × Position)
  history : List ClosedTrade
  last_updated : ℕ
deriving DecidableEq

/-- Replace the binding of a key in the positions dict, or append a new
binding at the end (Python dict item assignment). -/
def positions_update : List (String × Position) → String → Position → List (String × Position)
  | [], a, p => [(a, p)]
  | (b, q) :: rest, a, p =>
      if b = a then (a, p) :: rest else (b, q) :: positions_update rest a p

/-- Remove every binding of a key from the positions dict (Python del on a
dict, whose keys are unique). -/
def positions_delete (ps : List (String × Position)) (a : String) : List (String × Position) :=
  ps.filter (fun e => e.1 != a)

/-- Lookup in the positions dict (Python dict.get with default None): the
value of the first binding whose key matches. -/
def positions_lookup : List (String × Position) → String → Option Position
  | [], _ => none
  | (b, q) :: rest, a => if b = a then some q else positions_lookup rest a

/-- PortfolioManager.get_cash. -/
def get_cash (s : PortfolioState) : ℚ := s.cash

/-- PortfolioManager.get_active_positions_count: len(state.positions). -/
def get_active_positions_count (s : PortfolioState) : ℕ := s.positions.length

/-- PortfolioManager.get_position: state.positions.get(asset, None). -/
def get_position (s : PortfolioState) (asset : String) : Option Position :=
  positions_lookup s.positions asset

/-- The in-memory effect of PortfolioManager save: last_updated is set to the
current time, every other field is written out unchanged. -/
def save_state (s : PortfolioState) (now : ℕ) : PortfolioState :=
  { s with last_updated := now }

/-- PortfolioManager.execute_buy.  Returns the Python boolean result together
with the state after the call (unchanged when the buy is rejected). -/
def execute_buy (s : PortfolioState) (asset : String) (price qty fee_rate : ℚ)
    (now : ℕ) : Bool × PortfolioState :=
  let cost := qty * price
  let fee := cost * fee_rate
  let total_deduction := cost + fee
  if s.cash < total_deduction then
    (false, s)
  else
    let s1 : PortfolioState :=
      { s with
        cash := s.cash - total_deduction
        positions := positions_update s.positions asset ⟨qty, price, now⟩ }
    (true, save_state s1 now)

/-- PortfolioManager.execute_sell.  Returns the Python boolean result together
with the state after the call (unchanged when the sell is rejected). -/
def execute_sell (s : PortfolioState) (asset : String) (price fee_rate : ℚ)
    (now : ℕ) : Bool × PortfolioState :=
  match positions_lookup s.positions asset with
  | none => (false, s)
  | some position =>
      let qty := position.qty
      let entry_price := position.entry_price
      let gross_value := qty * price
      let fee := gross_value * fee_rate
      let net_value := gross_value - fee
      let pnl_net := net_value - qty * entry_price
      let s1 : PortfolioState :=
        { s with
          cash := s.cash + net_value
          history := s.history ++ [⟨asset, entry_price, price, pnl_net, now⟩]
          positions := positions_delete s.positions asset }
      (true, save_state s1 now)

/-- The default fee_rate of execute_buy and execute_sell (0.0015). -/
def default_fee_rate : ℚ := 15 / 10000

/-! ### Persistence (PortfolioManager load_or_create and save) -/

/-- What the durable record (the JSON file) can look like: absent, present
but unparseable, or present and parseable to a state. -/
inductive StoredRecord where
  | missing
  | corrupt
  | valid (s : PortfolioState)
deriving DecidableEq

/-- Outcome of load_or_create: either the process halts via exit(code), or a
state is returned together with the durable record after the call. -/
inductive LoadResult where
  | fatalExit (code : ℕ)
  | loaded (s : PortfolioState) (record : StoredRecord)
deriving DecidableEq

/-- PortfolioManager save: stamp last_updated with the current time, write
the whole state to a temp file, atomically replace the durable record.
Returns the new durable record and the in-memory state after the call. -/
def save (s : PortfolioState) (now : ℕ) : StoredRecord × PortfolioState :=
  let s1 := save_state s now
  (.valid s1, s1)

/-- PortfolioManager load_or_create: an existing record is parsed and
returned verbatim; a corrupt record halts the process with exit(1); a
missing record yields a fresh state (cash = initial_capital, empty positions
and history) which is saved and returned. -/
def load_or_create (record : StoredRecord) (initial_capital : ℚ) (now : ℕ) : LoadResult :=
  match record with
  | .valid s => .loaded s record
  | .corrupt => .fatalExit 1
  | .missing =>
      let default_state : PortfolioState :=
        { cash := initial_capital, positions := [], history := [], last_updated := now }
      let saved := save default_state now
      .loaded saved.2 saved.1

/-! ### Decision engine (LiveDecisionEngine) -/

/-- Python int() applied to a non-integral number truncates toward zero. -/
def py_int (q : ℚ) : ℤ := q.num.tdiv q.den

/-- LiveDecisionEngine.risk_per_trade = 0.02. -/
def risk_per_trade : ℚ := 2 / 100

/-- LiveDecisionEngine.max_global_risk = 0.06. -/
def max_global_risk : ℚ := 6 / 100

/-- LiveDecisionEngine.max_positions = int(max_global_risk / risk_per_trade). -/
def max_positions : ℤ := py_int (max_global_risk / risk_per_trade)

/-- The per-asset market row consumed by run_daily_execution: the last Close,
Max_50, Min_20 and ADX values of the prepared data frame. -/
structure MarketRow where
  close : ℚ
  max50 : ℚ
  min20 : ℚ
  adx : ℚ
deriving DecidableEq

/-- The inline position sizing of run_daily_execution (risk_amount over
risk per coin, capped by the cash-affordability bound). -/
def size_position (available_capital risk_fraction entry_price stop_price : ℚ) : ℚ :=
  let risk_amount := available_capital * risk_fraction
  let raw_qty := risk_amount / (entry_price - stop_price)
  let max_affordable_qty := available_capital / entry_price
  min raw_qty max_affordable_qty

/-- One iteration of the entry loop of run_daily_execution for one asset,
in the case where the asset is being evaluated for entry.  The Bool records
whether execute_buy was invoked.  Mirrors decision_engine.py lines 86-120:
skip if a position is held; skip if the risk cap is reached; require a
breakout (close above Max_50) and a strong trend (ADX above 25); size the
position and buy only when the risk per coin is positive. -/
def entry_step (s : PortfolioState) (asset : String) (row : MarketRow) (now : ℕ) :
    PortfolioState × Bool :=
  if (get_position s asset).isSome then (s, false)
  else if max_positions ≤ (get_active_positions_count s : ℤ) then (s, false)
  else if row.max50 < row.close then
    if (25 : ℚ) < row.adx then
      let stop_price := row.min20
      let risk_per_coin := row.close - stop_price
      if 0 < risk_per_coin then
        let qty := size_position (get_cash s) risk_per_trade row.close stop_price
        ((execute_buy s asset row.close qty default_fee_rate now).2, true)
      else (s, false)
    else (s, false)
  else (s, false)

/-! ### Call sequences over the ledger -/

/-- One call to a mutating ledger operation, with all of its arguments. -/
inductive TradeOp where
  | buy (asset : String) (price qty fee_rate : ℚ) (now : ℕ)
  | sell (asset : String) (price fee_rate : ℚ) (now : ℕ)

/-- The state after one ledger call (rejected calls leave it unchanged). -/
def apply_op (s : PortfolioState) : TradeOp → PortfolioState
  | .buy a p q f n => (execute_buy s a p q f n).2
  | .sell a p f n => (execute_sell s a p f n).2

/-- The state after a sequence of ledger calls. -/
def run_ops (s : PortfolioState) (ops : List TradeOp) : PortfolioState :=
  ops.foldl apply_op s

/-- Sensible call arguments: non-negative price and quantity, fee rate
between 0 and 1. -/
def op_valid : TradeOp → Prop
  | .buy _ p q f _ => 0 ≤ p ∧ 0 ≤ q ∧ 0 ≤ f ∧ f ≤ 1
  | .sell _ p f _ => 0 ≤ p ∧ 0 ≤ f ∧ f ≤ 1

/-- Every open position of the state has a non-negative quantity. -/
def positions_qty_nonneg (s : PortfolioState) : Prop :=
  ∀ e ∈ s.positions, 0 ≤ e.2.qty

/-! ### Lemmas about the positions dict -/

theorem positions_lookup_update_self (ps : List (String × Position)) (a : String)
    (p : Position) : positions_lookup (positions_update ps a p) a = some p := by
  induction ps with
  | nil => simp [positions_update, positions_lookup]
  | cons e rest ih =>
      obtain ⟨b, q⟩ := e
      by_cases hba : b = a
      · simp [positions_update, positions_lookup, hba]
      · simpa [positions_update, positions_lookup, hba] using ih

theorem positions_lookup_update_ne (ps : List (String × Position)) (a b : String)
    (p : Position) (hba : b ≠ a) :
    positions_lookup (positions_update ps a p) b = positions_lookup ps b := by
  induction ps with
  | nil => simp [positions_update, positions_lookup, Ne.symm hba]
  | cons e rest ih =>
      obtain ⟨c, q⟩ := e
      by_cases hca : c = a
      · subst hca
        simp [positions_update, positions_lookup, Ne.symm hba]
      · by_cases hcb : c = b
        · subst hcb
          simp [positions_update, positions_lookup, hca]
        · simpa [positions_update, positions_lookup, hca, hcb] using ih

theorem positions_lookup_delete_self (ps : List (String × Position)) (a : String) :
    positions_lookup (positions_delete ps a) a = none := by
  induction ps with
  | nil => simp [positions_delete, positions_lookup]
  | cons e rest ih =>
      obtain ⟨b, q⟩ := e
      by_cases hba : b = a
      · simpa [positions_delete, positions_lookup, List.filter_cons, hba] using ih
      · simpa [positions_delete, positions_lookup, List.filter_cons, hba] using ih

theorem positions_lookup_delete_ne (ps : List (String × Position)) (a b : String)
    (hba : b ≠ a) :
    positions_lookup (positions_delete ps a) b = positions_lookup ps b := by
  induction ps with
  | nil => simp [positions_delete, positions_lookup]
  | cons e rest ih =>
      obtain ⟨c, q⟩ := e
      by_cases hca : c = a
      · subst hca
        simpa [positions_delete, positions_lookup, List.filter_cons, Ne.symm hba] using ih
      · by_cases hcb : c = b
        · subst hcb
          simp [positions_delete, positions_lookup, List.filter_cons, hca]
        · simpa [positions_delete, positions_lookup, List.filter_cons, hca, hcb] using ih

theorem mem_positions_update (ps : List (String × Position)) (a : String)
    (p : Position) (e : String × Position) (he : e ∈ positions_update ps a p) :
    e ∈ ps ∨ e = (a, p) := by
  induction ps with
  | nil => simpa [positions_update] using he
  | cons c rest ih =>
      obtain ⟨c1, c2⟩ := c
      by_cases hca : c1 = a
      · simp only [positions_update, hca, if_true, eq_self_iff_true] at he
        rcases List.mem_cons.mp he with h | h
        · exact Or.inr h
        · exact Or.inl (List.mem_cons_of_mem _ h)
      · simp only [positions_update, hca, if_false] at he
        rcases List.mem_cons.mp he with h | h
        · exact Or.inl (h ▸ List.mem_cons_self _ _)
        · rcases ih h with h1 | h1
          · exact Or.inl (List.mem_cons_of_mem _ h1)
          · exact Or.inr h1

theorem mem_positions_delete (ps : List (String × Position)) (a : String)
    (e : String × Position) (he : e ∈ positions_delete ps a) : e ∈ ps :=
  (List.mem_filter.mp he).1

theorem positions_lookup_mem (ps : List (String × Position)) (a : String)
    (p : Position) (h : positions_lookup ps a = some p) : (a, p) ∈ ps := by
  induction ps with
  | nil => simp [positions_lookup] at h
  | cons e rest ih =>
      obtain ⟨b, q⟩ := e
      by_cases hba : b = a
      · subst hba
        simp only [positions_lookup, if_true, eq_self_iff_true, Option.some_inj] at h
        exact h ▸ List.mem_cons_self _ _
      · simp only [positions_lookup, hba, if_false] at h
        exact List.mem_cons_of_mem _ (ih h)

/-! ### Unfolding equations for the ledger operations -/

theorem execute_buy_eq_reject (s : PortfolioState) (a : String) (price qty fee_rate : ℚ)
    (now : ℕ) (h : s.cash < qty * price + qty * price * fee_rate) :
    execute_buy s a price qty fee_rate now = (false, s) := by
  simp [execute_buy, h]

theorem execute_buy_eq_commit (s : PortfolioState) (a : String) (price qty fee_rate : ℚ)
    (now : ℕ) (h : ¬ s.cash < qty * price + qty * price * fee_rate) :
    execute_buy s a price qty fee_rate now =
      (true,
        { cash := s.cash - (qty * price + qty * price * fee_rate)
          positions := positions_update s.positions a ⟨qty, price, now⟩
          history := s.history
          last_updated := now }) := by
  simp [execute_buy, h, save_state]

theorem execute_sell_eq_reject (s : PortfolioState) (a : String) (price fee_rate : ℚ)
    (now : ℕ) (h : positions_lookup s.positions a = none) :
    execute_sell s a price fee_rate now = (false, s) := by
  simp [execute_sell, h]

theorem execute_sell_eq_commit (s : PortfolioState) (a : String) (price fee_rate : ℚ)
    (now : ℕ) (pos : Position) (h : positions_lookup s.positions a = some pos) :
    execute_sell s a price fee_rate now =
      (true,
        { cash := s.cash + (pos.qty * price - pos.qty * price * fee_rate)
          positions := positions_delete s.positions a
          history := s.history ++ [⟨a, pos.entry_price, price,
              pos.qty * price - pos.qty * price * fee_rate - pos.qty * pos.entry_price, now⟩]
          last_updated := now }) := by
  simp [execute_sell, h, save_state]

/-! ### Claim theorems -/

/-- C2: execute_buy computes cost = quantity * price, fee = cost * fee_rate,
total = cost + fee, and returns a rejected outcome with the portfolio state
completely unchanged whenever total > cash; otherwise it debits cash by
total, records the position for the asset with the given quantity and
entry_price = price, and returns success. -/
theorem execute_buy_spec (s : PortfolioState) (a : String) (price qty fee_rate : ℚ)
    (now : ℕ) :
    (s.cash < qty * price + qty * price * fee_rate →
        execute_buy s a price qty fee_rate now = (false, s)) ∧
    (qty * price + qty * price * fee_rate ≤ s.cash →
        (execute_buy s a price qty fee_rate now).1 = true ∧
        (execute_buy s a price qty fee_rate now).2.cash
            = s.cash - (qty * price + qty * price * fee_rate) ∧
        get_position (execute_buy s a price qty fee_rate now).2 a
            = some ⟨qty, price, now⟩ ∧
        (execute_buy s a price qty fee_rate now).2.history = s.history) := by
  constructor
  · intro h
    simp [execute_buy, h]
  · intro h
    have h2 : ¬ s.cash < qty * price + qty * price * fee_rate := not_lt.mpr h
    simp [execute_buy, h2, get_position, save_state, positions_lookup_update_self]

theorem execute_buy_spec_witness :
    (10 : ℚ) * 100 + 10 * 100 * (1 / 1000) ≤
        (⟨10000, [], [], 0⟩ : PortfolioState).cash ∧
    (execute_buy ⟨10000, [], [], 0⟩ "X" 100 10 (1 / 1000) 5).1 = true ∧
    (execute_buy ⟨10000, [], [], 0⟩ "X" 100 10 (1 / 1000) 5).2.cash
        = (10000 : ℚ) - (10 * 100 + 10 * 100 * (1 / 1000)) ∧
    get_position (execute_buy ⟨10000, [], [], 0⟩ "X" 100 10 (1 / 1000) 5).2 "X"
        = some ⟨10, 100, 5⟩ :=
  ⟨by norm_num,
   ((execute_buy_spec ⟨10000, [], [], 0⟩ "X" 100 10 (1 / 1000) 5).2 (by norm_num)).1,
   ((execute_buy_spec ⟨10000, [], [], 0⟩ "X" 100 10 (1 / 1000) 5).2 (by norm_num)).2.1,
   ((execute_buy_spec ⟨10000, [], [], 0⟩ "X" 100 10 (1 / 1000) 5).2 (by norm_num)).2.2.1⟩

/-- C3: execute_sell returns a rejected outcome iff no position exists for
the asset; on success it credits cash by net = quantity * price *
(1 - fee_rate), appends exactly one ClosedTrade with realized pnl equal to
net - quantity * entry_price to history, and afterwards get_position
reports the asset absent. -/
theorem execute_sell_spec (s : PortfolioState) (a : String) (price fee_rate : ℚ)
    (now : ℕ) :
    (get_position s a = none → execute_sell s a price fee_rate now = (false, s)) ∧
    (∀ pos : Position, get_position s a = some pos →
        (execute_sell s a price fee_rate now).1 = true ∧
        (execute_sell s a price fee_rate now).2.cash
            = s.cash + pos.qty * price * (1 - fee_rate) ∧
        (execute_sell s a price fee_rate now).2.history
            = s.history ++ [⟨a, pos.entry_price, price,
                pos.qty * price * (1 - fee_rate) - pos.qty * pos.entry_price, now⟩] ∧
        get_position (execute_sell s a price fee_rate now).2 a = none) := by
  constructor
  · intro h
    rw [get_position] at h
    simp [execute_sell, h]
  · intro pos h
    rw [get_position] at h
    have hcash : s.cash + (pos.qty * price - pos.qty * price * fee_rate)
        = s.cash + pos.qty * price * (1 - fee_rate) := by ring
    have hpnl : pos.qty * price - pos.qty * price * fee_rate - pos.qty * pos.entry_price
        = pos.qty * price * (1 - fee_rate) - pos.qty * pos.entry_price := by ring
    refine ⟨by simp [execute_sell, h], ?_, ?_, ?_⟩
    · simp only [execute_sell, h, save_state]
      exact hcash
    · simp only [execute_sell, h, save_state]
      rw [hpnl]
    · simp only [execute_sell, h, save_state, get_position]
      exact positions_lookup_delete_self s.positions a

theorem execute_sell_spec_witness :
    get_position (⟨8999, [("X", ⟨10, 100, 5⟩)], [], 5⟩ : PortfolioState) "X"
        = some ⟨10, 100, 5⟩ ∧
    (execute_sell ⟨8999, [("X", ⟨10, 100, 5⟩)], [], 5⟩ "X" 120 (1 / 1000) 7).1 = true ∧
    (execute_sell ⟨8999, [("X", ⟨10, 100, 5⟩)], [], 5⟩ "X" 120 (1 / 1000) 7).2.cash
        = (8999 : ℚ) + 10 * 120 * (1 - 1 / 1000) ∧
    (execute_sell ⟨8999, [("X", ⟨10, 100, 5⟩)], [], 5⟩ "X" 120 (1 / 1000) 7).2.history
        = [⟨"X", 100, 120, 10 * 120 * (1 - 1 / 1000) - 10 * 100, 7⟩] ∧
    get_position (execute_sell ⟨8999, [("X", ⟨10, 100, 5⟩)], [], 5⟩ "X" 120 (1 / 1000) 7).2 "X"
        = none :=
  ⟨by decide,
   ((execute_sell_spec ⟨8999, [("X", ⟨10, 100, 5⟩)], [], 5⟩ "X" 120 (1 / 1000) 7).2
      ⟨10, 100, 5⟩ (by decide)).1,
   ((execute_sell_spec ⟨8999, [("X", ⟨10, 100, 5⟩)], [], 5⟩ "X" 120 (1 / 1000) 7).2
      ⟨10, 100, 5⟩ (by decide)).2.1,
   ((execute_sell_spec ⟨8999, [("X", ⟨10, 100, 5⟩)], [], 5⟩ "X" 120 (1 / 1000) 7).2
      ⟨10, 100, 5⟩ (by decide)).2.2.1,
   ((execute_sell_spec ⟨8999, [("X", ⟨10, 100, 5⟩)], [], 5⟩ "X" 120 (1 / 1000) 7).2
      ⟨10, 100, 5⟩ (by decide)).2.2.2⟩

/-- C7: from any state with sufficient cash, a successful execute_buy at
price p with zero fee followed immediately by execute_sell at the same
price and zero fee realizes a pnl of 0 and restores cash to its pre-buy
value. -/
theorem buy_then_sell_same_price (s : PortfolioState) (a : String) (p q : ℚ)
    (n1 n2 : ℕ) (h : q * p ≤ s.cash) :
    (execute_buy s a p q 0 n1).1 = true ∧
    (execute_sell (execute_buy s a p q 0 n1).2 a p 0 n2).1 = true ∧
    (execute_sell (execute_buy s a p q 0 n1).2 a p 0 n2).2.cash = s.cash ∧
    (execute_sell (execute_buy s a p q 0 n1).2 a p 0 n2).2.history
        = s.history ++ [⟨a, p, p, 0, n2⟩] := by
  have hb : ¬ s.cash < q * p + q * p * 0 := by
    push_neg
    linarith
  rw [execute_buy_eq_commit s a p q 0 n1 hb]
  have hlk : positions_lookup
      (positions_update s.positions a ⟨q, p, n1⟩) a = some ⟨q, p, n1⟩ :=
    positions_lookup_update_self s.positions a ⟨q, p, n1⟩
  rw [execute_sell_eq_commit _ a p 0 n2 ⟨q, p, n1⟩ hlk]
  refine ⟨rfl, rfl, by ring, ?_⟩
  have hpnl : q * p - q * p * 0 - q * p = 0 := by ring
  simp only [hpnl]

theorem buy_then_sell_same_price_witness :
    (2 : ℚ) * 50 ≤ (⟨1000, [], [], 0⟩ : PortfolioState).cash ∧
    (execute_buy ⟨1000, [], [], 0⟩ "Y" 50 2 0 3).1 = true ∧
    (execute_sell (execute_buy ⟨1000, [], [], 0⟩ "Y" 50 2 0 3).2 "Y" 50 0 4).1 = true ∧
    (execute_sell (execute_buy ⟨1000, [], [], 0⟩ "Y" 50 2 0 3).2 "Y" 50 0 4).2.cash = 1000 ∧
    (execute_sell (execute_buy ⟨1000, [], [], 0⟩ "Y" 50 2 0 3).2 "Y" 50 0 4).2.history
        = [⟨"Y", 50, 50, 0, 4⟩] :=
  ⟨by norm_num,
   (buy_then_sell_same_price ⟨1000, [], [], 0⟩ "Y" 50 2 3 4 (by norm_num)).1,
   (buy_then_sell_same_price ⟨1000, [], [], 0⟩ "Y" 50 2 3 4 (by norm_num)).2.1,
   (buy_then_sell_same_price ⟨1000, [], [], 0⟩ "Y" 50 2 3 4 (by norm_num)).2.2.1,
   (buy_then_sell_same_price ⟨1000, [], [], 0⟩ "Y" 50 2 3 4 (by norm_num)).2.2.2⟩

/-- C10: buying or selling an asset a, whether the call commits or is
rejected, leaves the position record of every other asset b unchanged, and
execute_sell leaves every previously appended history entry in place,
at most appending one new entry at the end. -/
theorem ledger_frame (s : PortfolioState) (a b : String) (pb qb fb ps fs : ℚ)
    (n1 n2 : ℕ) (hba : b ≠ a) :
    get_position (execute_buy s a pb qb fb n1).2 b = get_position s b ∧
    get_position (execute_sell s a ps fs n2).2 b = get_position s b ∧
    ((execute_sell s a ps fs n2).2.history = s.history ∨
      ∃ t : ClosedTrade, (execute_sell s a ps fs n2).2.history = s.history ++ [t]) := by
  refine ⟨?_, ?_, ?_⟩
  · by_cases hc : s.cash < qb * pb + qb * pb * fb
    · rw [execute_buy_eq_reject s a pb qb fb n1 hc]
    · rw [execute_buy_eq_commit s a pb qb fb n1 hc]
      exact positions_lookup_update_ne s.positions a b ⟨qb, pb, n1⟩ hba
  · cases hlk : positions_lookup s.positions a with
    | none => rw [execute_sell_eq_reject s a ps fs n2 hlk]
    | some pos =>
        rw [execute_sell_eq_commit s a ps fs n2 pos hlk]
        exact positions_lookup_delete_ne s.positions a b hba
  · cases hlk : positions_lookup s.positions a with
    | none =>
        rw [execute_sell_eq_reject s a ps fs n2 hlk]
        exact Or.inl rfl
    | some pos =>
        rw [execute_sell_eq_commit s a ps fs n2 pos hlk]
        exact Or.inr ⟨_, rfl⟩

theorem ledger_frame_witness :
    ("B" : String) ≠ "A" ∧
    get_position (execute_buy ⟨100, [("B", ⟨1, 2, 0⟩)], [], 0⟩ "A" 3 4 0 1).2 "B"
        = get_position (⟨100, [("B", ⟨1, 2, 0⟩)], [], 0⟩ : PortfolioState) "B" ∧
    get_position (execute_sell ⟨100, [("B", ⟨1, 2, 0⟩)], [], 0⟩ "A" 3 0 1).2 "B"
        = get_position (⟨100, [("B", ⟨1, 2, 0⟩)], [], 0⟩ : PortfolioState) "B" :=
  ⟨by decide,
   (ledger_frame ⟨100, [("B", ⟨1, 2, 0⟩)], [], 0⟩ "A" "B" 3 4 0 3 0 1 1 (by decide)).1,
   (ledger_frame ⟨100, [("B", ⟨1, 2, 0⟩)], [], 0⟩ "A" "B" 3 4 0 3 0 1 1 (by decide)).2.1⟩

theorem apply_op_preserves (s : PortfolioState) (op : TradeOp) (hv : op_valid op)
    (h0 : 0 ≤ s.cash) (hq : positions_qty_nonneg s) :
    0 ≤ (apply_op s op).cash ∧ positions_qty_nonneg (apply_op s op) := by
  cases op with
  | buy a p q f n =>
      obtain ⟨hp, hq0, hf0, hf1⟩ := hv
      by_cases hc : s.cash < q * p + q * p * f
      · rw [apply_op, execute_buy_eq_reject s a p q f n hc]
        exact ⟨h0, hq⟩
      · rw [apply_op, execute_buy_eq_commit s a p q f n hc]
        refine ⟨by simpa using not_lt.mp hc, ?_⟩
        intro e he
        rcases mem_positions_update s.positions a ⟨q, p, n⟩ e he with h | h
        · exact hq e h
        · rw [h]
          exact hq0
  | sell a p f n =>
      obtain ⟨hp, hf0, hf1⟩ := hv
      cases hlk : positions_lookup s.positions a with
      | none =>
          rw [apply_op, execute_sell_eq_reject s a p f n hlk]
          exact ⟨h0, hq⟩
      | some pos =>
          rw [apply_op, execute_sell_eq_commit s a p f n pos hlk]
          have hqty : 0 ≤ pos.qty := hq (a, pos) (positions_lookup_mem s.positions a pos hlk)
          refine ⟨?_, ?_⟩
          · have hnet : pos.qty * p - pos.qty * p * f = pos.qty * p * (1 - f) := by ring
            have hnn : 0 ≤ pos.qty * p * (1 - f) :=
              mul_nonneg (mul_nonneg hqty hp) (by linarith)
            show 0 ≤ s.cash + (pos.qty * p - pos.qty * p * f)
            rw [hnet]
            linarith
          · intro e he
            exact hq e (mem_positions_delete s.positions a e he)

theorem run_ops_preserves (ops : List TradeOp) :
    ∀ s : PortfolioState, 0 ≤ s.cash → positions_qty_nonneg s →
      (∀ op ∈ ops, op_valid op) →
      0 ≤ (run_ops s ops).cash ∧ positions_qty_nonneg (run_ops s ops) := by
  induction ops with
  | nil => exact fun s h0 hq _ => ⟨h0, hq⟩
  | cons op rest ih =>
      intro s h0 hq hops
      have hstep := apply_op_preserves s op (hops op (List.mem_cons_self _ _)) h0 hq
      have hrest : ∀ o ∈ rest, op_valid o := fun o ho => hops o (List.mem_cons_of_mem _ ho)
      simpa [run_ops, List.foldl_cons] using
        ih (apply_op s op) hstep.1 hstep.2 hrest

/-- C1, counterexample to the unrestricted claim: from a state with
non-negative cash, a single committed execute_sell call with a fee rate
above 1 drives cash negative. -/
theorem cash_nonneg_counterexample :
    (0 : ℚ) ≤ (⟨0, [("A", ⟨1, 1, 0⟩)], [], 0⟩ : PortfolioState).cash ∧
    (execute_sell ⟨0, [("A", ⟨1, 1, 0⟩)], [], 0⟩ "A" 1 2 1).1 = true ∧
    (run_ops ⟨0, [("A", ⟨1, 1, 0⟩)], [], 0⟩ [.sell "A" 1 2 1]).cash < 0 := by
  have hlk : positions_lookup [("A", (⟨1, 1, 0⟩ : Position))] "A" = some ⟨1, 1, 0⟩ := by
    simp [positions_lookup]
  refine ⟨le_refl 0, ?_, ?_⟩
  · rw [execute_sell_eq_commit ⟨0, [("A", ⟨1, 1, 0⟩)], [], 0⟩ "A" 1 2 1 ⟨1, 1, 0⟩ hlk]
  · simp only [run_ops, List.foldl_cons, List.foldl_nil, apply_op]
    rw [execute_sell_eq_commit ⟨0, [("A", ⟨1, 1, 0⟩)], [], 0⟩ "A" 1 2 1 ⟨1, 1, 0⟩ hlk]
    show (0 : ℚ) + (1 * 1 - 1 * 1 * 2) < 0
    norm_num

/-- C1, amended: for every sequence of execute_buy and execute_sell calls
whose arguments have non-negative price and quantity and a fee rate between
0 and 1, starting from a state with non-negative cash and non-negative
position quantities, cash never goes negative after any committed
operation. -/
theorem cash_never_negative (s : PortfolioState) (ops : List TradeOp)
    (h0 : 0 ≤ s.cash) (hq : positions_qty_nonneg s)
    (hops : ∀ op ∈ ops, op_valid op) : 0 ≤ (run_ops s ops).cash :=
  (run_ops_preserves ops s h0 hq hops).1

theorem cash_never_negative_witness :
    (0 : ℚ) ≤ (⟨10, [], [], 0⟩ : PortfolioState).cash ∧
    0 ≤ (run_ops ⟨10, [], [], 0⟩
          [.buy "A" 1 2 0 1, .sell "A" 1 0 2]).cash :=
  ⟨by norm_num,
   cash_never_negative ⟨10, [], [], 0⟩ [.buy "A" 1 2 0 1, .sell "A" 1 0 2]
     (by norm_num)
     (fun e he => nomatch he)
     (fun op hop => by
        rcases List.mem_cons.mp hop with h | h
        · rw [h]
          exact ⟨by norm_num, by norm_num, le_refl 0, by norm_num⟩
        · rw [List.mem_singleton.mp h]
          exact ⟨by norm_num, le_refl 0, by norm_num⟩)⟩

theorem max_positions_eq : max_positions = 3 := by
  have h : max_global_risk / risk_per_trade = (3 : ℚ) := by
    norm_num [max_global_risk, risk_per_trade]
  rw [max_positions, h]
  decide

/-- C4: the global position cap equals the truncation of
max_global_risk / risk_per_trade, which is 3 for the configured values
0.06 and 0.02; with 3 positions already open, an entry evaluation for a
4th distinct asset never reaches execute_buy, whatever the market row
says. -/
theorem position_cap_enforced (s : PortfolioState) (a : String) (row : MarketRow)
    (now : ℕ) (h3 : get_active_positions_count s = 3)
    (ha : get_position s a = none) :
    max_positions = 3 ∧ entry_step s a row now = (s, false) := by
  refine ⟨max_positions_eq, ?_⟩
  unfold entry_step
  rw [ha, h3, max_positions_eq]
  norm_num

theorem position_cap_enforced_witness :
    get_active_positions_count
        (⟨100, [("B", ⟨1, 1, 0⟩), ("C", ⟨1, 1, 0⟩), ("D", ⟨1, 1, 0⟩)], [], 0⟩ :
          PortfolioState) = 3 ∧
    get_position
        (⟨100, [("B", ⟨1, 1, 0⟩), ("C", ⟨1, 1, 0⟩), ("D", ⟨1, 1, 0⟩)], [], 0⟩ :
          PortfolioState) "A" = none ∧
    (max_positions = 3 ∧
      entry_step ⟨100, [("B", ⟨1, 1, 0⟩), ("C", ⟨1, 1, 0⟩), ("D", ⟨1, 1, 0⟩)], [], 0⟩
          "A" ⟨1000, 1, 1, 100⟩ 0
        = (⟨100, [("B", ⟨1, 1, 0⟩), ("C", ⟨1, 1, 0⟩), ("D", ⟨1, 1, 0⟩)], [], 0⟩, false)) :=
  ⟨by decide, by decide,
   position_cap_enforced
     ⟨100, [("B", ⟨1, 1, 0⟩), ("C", ⟨1, 1, 0⟩), ("D", ⟨1, 1, 0⟩)], [], 0⟩
     "A" ⟨1000, 1, 1, 100⟩ 0 (by decide) (by decide)⟩

/-- C5: the position sizing returns the minimum of the risk-based quantity
available_capital * risk_fraction / (entry_price - stop_price) and the
affordability bound available_capital / entry_price, so the sized quantity
times the entry price never exceeds the available capital; on the concrete
inputs of the spec the result is exactly 20. -/
theorem size_position_spec (cap rf entry stop : ℚ) (hp : 0 < entry) :
    size_position cap rf entry stop
        = min (cap * rf / (entry - stop)) (cap / entry) ∧
    size_position cap rf entry stop * entry ≤ cap ∧
    size_position 10000 (2 / 100) 100 90 = 20 := by
  refine ⟨rfl, ?_, ?_⟩
  · have h1 : size_position cap rf entry stop ≤ cap / entry := min_le_right _ _
    have h2 := mul_le_mul_of_nonneg_right h1 hp.le
    rwa [div_mul_cancel₀ cap (ne_of_gt hp)] at h2
  · show min (10000 * (2 / 100) / ((100 : ℚ) - 90)) (10000 / 100) = 20
    rw [show (10000 * (2 / 100) / ((100 : ℚ) - 90)) = 20 by norm_num,
      show ((10000 : ℚ) / 100) = 100 by norm_num,
      min_eq_left (by norm_num : (20 : ℚ) ≤ 100)]

theorem size_position_spec_witness :
    (0 : ℚ) < 100 ∧
    size_position 10000 (2 / 100) 100 90 * 100 ≤ 10000 ∧
    size_position 10000 (2 / 100) 100 90 = 20 :=
  ⟨by norm_num,
   (size_position_spec 10000 (2 / 100) 100 90 (by norm_num)).2.1,
   (size_position_spec 10000 (2 / 100) 100 90 (by norm_num)).2.2⟩

/-- C6: when the stop reference is at or above the entry price, the risk
per coin is not positive, so the entry evaluation sizes nothing and makes
no execute_buy call for that asset: the state is returned unchanged. -/
theorem entry_step_degenerate_stop (s : PortfolioState) (a : String) (row : MarketRow)
    (now : ℕ) (h : row.close ≤ row.min20) :
    entry_step s a row now = (s, false) := by
  by_cases h1 : (get_position s a).isSome
  · simp [entry_step, h1]
  · by_cases h2 : max_positions ≤ (get_active_positions_count s : ℤ)
    · simp [entry_step, h1, h2]
    · by_cases h3 : row.max50 < row.close
      · by_cases h4 : (25 : ℚ) < row.adx
        · have h5 : ¬ 0 < row.close - row.min20 := by linarith
          simp [entry_step, h1, h2, h3, h4, h5]
        · simp [entry_step, h1, h2, h3, h4]
      · simp [entry_step, h1, h2, h3]

theorem entry_step_degenerate_stop_witness :
    (⟨100, 50, 100, 99⟩ : MarketRow).close ≤ (⟨100, 50, 100, 99⟩ : MarketRow).min20 ∧
    entry_step ⟨1000, [], [], 0⟩ "A" ⟨100, 50, 100, 99⟩ 0 = (⟨1000, [], [], 0⟩, false) :=
  ⟨le_refl 100,
   entry_step_degenerate_stop ⟨1000, [], [], 0⟩ "A" ⟨100, 50, 100, 99⟩ 0 (le_refl 100)⟩

/-- C8: when no persisted record exists, load_or_create constructs,
persists and returns a fresh state with cash = initial_capital and empty
positions and history; when the persisted record fails to parse, it halts
the process with exit code 1 instead of resetting the state. -/
theorem load_or_create_spec (c : ℚ) (now : ℕ) :
    load_or_create .missing c now
        = .loaded ⟨c, [], [], now⟩ (.valid ⟨c, [], [], now⟩) ∧
    load_or_create .corrupt c now = .fatalExit 1 :=
  ⟨rfl, rfl⟩

/-- C9: save stamps last_updated with the save time and writes cash,
positions and history out exactly as passed in, and a subsequent
load_or_create on the resulting record returns a state equal in all fields
to the one save wrote. -/
theorem save_load_round_trip (s : PortfolioState) (now now2 : ℕ) (c : ℚ) :
    (save s now).2.cash = s.cash ∧
    (save s now).2.positions = s.positions ∧
    (save s now).2.history = s.history ∧
    (save s now).2.last_updated = now ∧
    load_or_create (save s now).1 c now2 = .loaded (save s now).2 (save s now).1 :=
  ⟨rfl, rfl, rfl, rfl, rfl⟩

end LiveTrading
